import Mathlib

/-!
Verification of the `libmisc` n-dimensional array core (`src/ndarray.hpp`)
and the tuple-element iterator adapter (`src/element_iterator.hpp`).

The C++ code is shallowly embedded:
  * a shape (`std::array<int, N>` with non-negative extents) is a `List Nat`
    whose length is the rank `N`;
  * the index arithmetic (`stride`, `strides`, `n2one`, `one2n`) is
    translated function by function from `ndarray.hpp`;
  * the array object (`_shape`, `_size`, `_data`) is a record whose `data`
    field is a handle into an explicit store of heap buffers, so that
    ownership transfer (move), deep copy and double frees are observable;
  * iterators are records of the fields the C++ classes hold.
-/

namespace Libmisc

/-! ### Index arithmetic (translated from `ndarray.hpp`) -/

/-- Total number of elements for a shape:
`std::accumulate(shape.begin(), shape.end(), 1, std::multiplies<int>())`
as in the shape constructor of `ndarray`. -/
def prodShape (shape : List Nat) : Nat :=
  shape.foldl (fun a b => a * b) 1

/-- The C++ `ndarray::stride`:
`if (i == NDIMS-1) return 1; return stride(i+1) * _shape[i+1];`.
The recursion increases `i` towards `NDIMS - 1`; in the embedding the
measure is the number of extents after position `i`.  (For `i` at or past
the last dimension the C++ base case returns 1.) -/
def stride (shape : List Nat) (i : Nat) : Nat :=
  if h : i + 1 < shape.length then
    stride shape (i + 1) * shape[i + 1]
  else
    1
termination_by shape.length - i

/-- The C++ `ndarray::strides`: the loop `for d in [0, NDIMS): ans[d] = stride(d)`. -/
def strides (shape : List Nat) : List Nat :=
  (List.range shape.length).map (fun d => stride shape d)

/-- The loop body of `ndarray::n2one`:
`flat = 0; for (d = 0; d < NDIMS; ++d) flat += idx[d] * stride(d);`
with `d` the loop counter and `flat` the accumulator. -/
def n2oneGo (shape idx : List Nat) (d : Nat) (flat : Nat) : Nat :=
  if d < shape.length then
    n2oneGo shape idx (d + 1) (flat + idx.getD d 0 * stride shape d)
  else
    flat
termination_by shape.length - d

/-- The C++ `ndarray::n2one`: flat index of an N-dimensional index. -/
def n2one (shape idx : List Nat) : Nat :=
  n2oneGo shape idx 0 0

/-- The loop body of `ndarray::one2n`:
`for (i = 0; i < NDIMS; ++i) { ans[i] = ijk / stride(i); ijk %= stride(i); }`
producing the entries of `ans` in order. -/
def one2nGo (shape : List Nat) (i : Nat) (ijk : Nat) : List Nat :=
  if i < shape.length then
    (ijk / stride shape i) :: one2nGo shape (i + 1) (ijk % stride shape i)
  else
    []
termination_by shape.length - i

/-- The C++ `ndarray::one2n`: N-dimensional index of a flat index. -/
def one2n (shape : List Nat) (ijk : Nat) : List Nat :=
  one2nGo shape 0 ijk

/-! ### Structural companions, used only to evaluate the loop-shaped
definitions on concrete inputs and to drive the inductive proofs. -/

/-- Structural form of `n2one` (proved equal in `n2one_eq`). -/
def n2oneS : List Nat → List Nat → Nat
  | [], _ => 0
  | _ :: rest, idx => idx.getD 0 0 * prodShape rest + n2oneS rest (idx.drop 1)

/-- Structural form of `one2n` (proved equal in `one2n_eq`). -/
def one2nS : List Nat → Nat → List Nat
  | [], _ => []
  | _ :: rest, ijk => (ijk / prodShape rest) :: one2nS rest (ijk % prodShape rest)

/-! ### Basic lemmas about the index arithmetic -/

theorem prodShape_eq_prod (l : List Nat) : prodShape l = l.prod := by
  rw [List.prod_eq_foldl]; rfl

theorem prodShape_cons (x : Nat) (l : List Nat) :
    prodShape (x :: l) = x * prodShape l := by
  simp [prodShape_eq_prod, List.prod_cons]

theorem prodShape_pos {l : List Nat} (h : ∀ e ∈ l, 1 ≤ e) : 0 < prodShape l := by
  rw [prodShape_eq_prod]
  exact List.prod_pos h

/-- The C++ stride recursion computes the product of the trailing extents. -/
theorem stride_eq_prod_drop (shape : List Nat) (i : Nat) :
    stride shape i = prodShape (shape.drop (i + 1)) := by
  rw [stride]
  split
  · next h =>
    rw [stride_eq_prod_drop shape (i + 1)]
    rw [List.drop_eq_getElem_cons h, prodShape_cons]
    exact (Nat.mul_comm _ _)
  · next h =>
    rw [List.drop_eq_nil_of_le (by omega)]
    rfl
termination_by shape.length - i

theorem stride_cons_succ (s : Nat) (rest : List Nat) (i : Nat) :
    stride (s :: rest) (i + 1) = stride rest i := by
  rw [stride_eq_prod_drop, stride_eq_prod_drop]
  rfl

theorem stride_cons_zero (s : Nat) (rest : List Nat) :
    stride (s :: rest) 0 = prodShape rest := by
  rw [stride_eq_prod_drop]
  rfl

theorem getD_drop_one (idx : List Nat) (d : Nat) :
    idx.getD (d + 1) 0 = (idx.drop 1).getD d 0 := by
  cases idx <;> simp [List.getD]

/-- The accumulator of the `n2one` loop splits off additively. -/
theorem n2oneGo_acc (shape idx : List Nat) (d a : Nat) :
    n2oneGo shape idx d a = a + n2oneGo shape idx d 0 := by
  by_cases h : d < shape.length
  · rw [n2oneGo, if_pos h]
    conv_rhs => rw [n2oneGo, if_pos h]
    rw [n2oneGo_acc shape idx (d + 1) (a + idx.getD d 0 * stride shape d),
      n2oneGo_acc shape idx (d + 1) (0 + idx.getD d 0 * stride shape d)]
    omega
  · rw [n2oneGo, if_neg h]
    conv_rhs => rw [n2oneGo, if_neg h]
    omega
termination_by shape.length - d

/-- Dropping the leading extent shifts the `n2one` loop by one position. -/
theorem n2oneGo_cons_succ (s : Nat) (rest idx : List Nat) (d a : Nat) :
    n2oneGo (s :: rest) idx (d + 1) a = n2oneGo rest (idx.drop 1) d a := by
  by_cases h : d < rest.length
  · rw [n2oneGo, if_pos (by simp only [List.length_cons]; omega)]
    conv_rhs => rw [n2oneGo, if_pos h]
    rw [getD_drop_one, stride_cons_succ]
    exact n2oneGo_cons_succ s rest idx (d + 1) _
  · rw [n2oneGo, if_neg (by simp only [List.length_cons]; omega)]
    conv_rhs => rw [n2oneGo, if_neg h]
termination_by rest.length - d

theorem n2one_cons (s : Nat) (rest idx : List Nat) :
    n2one (s :: rest) idx = idx.getD 0 0 * prodShape rest + n2one rest (idx.drop 1) := by
  rw [n2one, n2oneGo, if_pos (by simp), n2oneGo_cons_succ, n2oneGo_acc,
    stride_cons_zero, n2one]
  omega

theorem n2one_nil (idx : List Nat) : n2one [] idx = 0 := by
  rw [n2one, n2oneGo]
  simp

/-- The loop-shaped `n2one` agrees with its structural companion. -/
theorem n2one_eq (shape : List Nat) : ∀ idx, n2one shape idx = n2oneS shape idx := by
  induction shape with
  | nil => intro idx; rw [n2one_nil]; rfl
  | cons s rest ih => intro idx; rw [n2one_cons, n2oneS, ih]

/-- Dropping the leading extent shifts the `one2n` loop by one position. -/
theorem one2nGo_cons_succ (s : Nat) (rest : List Nat) (i ijk : Nat) :
    one2nGo (s :: rest) (i + 1) ijk = one2nGo rest i ijk := by
  by_cases h : i < rest.length
  · rw [one2nGo, if_pos (by simp only [List.length_cons]; omega)]
    conv_rhs => rw [one2nGo, if_pos h]
    rw [stride_cons_succ, one2nGo_cons_succ s rest (i + 1) (ijk % stride rest i)]
  · rw [one2nGo, if_neg (by simp only [List.length_cons]; omega)]
    conv_rhs => rw [one2nGo, if_neg h]
termination_by rest.length - i

theorem one2n_cons (s : Nat) (rest : List Nat) (ijk : Nat) :
    one2n (s :: rest) ijk =
      (ijk / prodShape rest) :: one2n rest (ijk % prodShape rest) := by
  rw [one2n, one2nGo, if_pos (by simp), stride_cons_zero, one2nGo_cons_succ, one2n]

theorem one2n_nil (ijk : Nat) : one2n [] ijk = [] := by
  rw [one2n, one2nGo]
  simp

/-- The loop-shaped `one2n` agrees with its structural companion. -/
theorem one2n_eq (shape : List Nat) : ∀ ijk, one2n shape ijk = one2nS shape ijk := by
  induction shape with
  | nil => intro ijk; rw [one2n_nil]; rfl
  | cons s rest ih => intro ijk; rw [one2n_cons, one2nS, ih]

/-- A valid N-dimensional index maps below the total size. -/
theorem n2one_lt_prodShape {idx shape : List Nat}
    (h : List.Forall₂ (· < ·) idx shape) :
    n2one shape idx < prodShape shape := by
  induction h with
  | nil =>
    rw [n2one_nil]
    exact Nat.zero_lt_one
  | @cons a b as bs ha hrest ih =>
    rw [n2one_cons, prodShape_cons]
    simp only [List.getD_cons_zero, List.drop_one, List.tail_cons]
    calc a * prodShape bs + n2one bs as
        < a * prodShape bs + prodShape bs := Nat.add_lt_add_left ih _
      _ = (a + 1) * prodShape bs := by ring
      _ ≤ b * prodShape bs := Nat.mul_le_mul_right _ (Nat.succ_le_of_lt ha)

/-- Forward after inverse is the identity on flat indices below the size. -/
theorem n2one_one2n {shape : List Nat} (hext : ∀ e ∈ shape, 1 ≤ e) :
    ∀ f, f < prodShape shape → n2one shape (one2n shape f) = f := by
  induction shape with
  | nil =>
    intro f hf
    have hf0 : f = 0 := by
      have : prodShape ([] : List Nat) = 1 := rfl
      omega
    rw [hf0, one2n_nil, n2one_nil]
  | cons s rest ih =>
    intro f hf
    have hP : 0 < prodShape rest :=
      prodShape_pos (fun e he => hext e (List.mem_cons_of_mem _ he))
    rw [one2n_cons, n2one_cons]
    simp only [List.getD_cons_zero, List.drop_one, List.tail_cons]
    rw [ih (fun e he => hext e (List.mem_cons_of_mem _ he)) _ (Nat.mod_lt _ hP)]
    exact Nat.div_add_mod' f (prodShape rest)

/-- Inverse after forward is the identity on valid N-dimensional indices. -/
theorem one2n_n2one {idx shape : List Nat}
    (h : List.Forall₂ (· < ·) idx shape) :
    one2n shape (n2one shape idx) = idx := by
  induction h with
  | nil => rw [n2one_nil, one2n_nil]
  | @cons a b as bs ha hrest ih =>
    have hm : n2one bs as < prodShape bs := n2one_lt_prodShape hrest
    have hP : 0 < prodShape bs := Nat.lt_of_le_of_lt (Nat.zero_le _) hm
    rw [n2one_cons, one2n_cons]
    simp only [List.getD_cons_zero, List.drop_one, List.tail_cons]
    congr 1
    · rw [Nat.mul_comm, Nat.mul_add_div hP, Nat.div_eq_of_lt hm]
      omega
    · rw [Nat.add_comm, Nat.add_mul_mod_self_right, Nat.mod_eq_of_lt hm]
      exact ih

/-! ### Heap model of the array object

`ndarray` owns its buffer through a `std::unique_ptr<T[]>`.  The embedding
makes the heap explicit: a `Store` is the list of buffers allocated so far,
where `some buf` is a live buffer and `none` a freed (or never written)
slot; `_data` becomes an optional handle (slot number), `none` standing for
the null pointer.  This makes ownership transfer, deep copying, aliasing
and double frees observable facts of the model. -/

/-- The explicit heap: one slot per allocation, `none` once freed. -/
abbrev Store (α : Type) := List (Option (List α))

/-- The data members of `ndarray<T, N>`: `_shape`, `_size` and the handle
held by `_data`.  The rank `N` is `shape.length`; `int` extents, sizes and
positions are modelled as `Nat`, which agrees with the C++ values on the
non-negative range all claims quantify over. -/
structure ndarray where
  shape : List Nat
  size : Nat
  data : Option Nat
deriving DecidableEq, Repr

/-- The C++ `new T[n]`: append a fresh live buffer and return its handle. -/
def allocNew {α : Type} (st : Store α) (buf : List α) : Store α × Nat :=
  (st ++ [some buf], st.length)

/-- The default constructor: value-initialised shape (all zeros), `_size`
zero, null `_data`. -/
def mkDefault (N : Nat) : ndarray :=
  ⟨List.replicate N 0, 0, none⟩

/-- The C++ `ndarray(const index_type& shape)`: `_size` is the `std::accumulate`
product of the extents and `_data` a fresh allocation of `_size` elements.
`junk` stands for the indeterminate contents of the uninitialised buffer. -/
def mkShape {α : Type} (st : Store α) (shape : List Nat) (junk : α) :
    Store α × ndarray :=
  let size := prodShape shape
  let r := allocNew st (List.replicate size junk)
  (r.1, ⟨shape, size, some r.2⟩)

/-- The C++ `std::fill(_data.get(), _data.get() + _size, val)`: every one of the
`_size` slots of the owned buffer is set to `val`. -/
def fillData {α : Type} (st : Store α) (a : ndarray) (val : α) : Store α :=
  match a.data with
  | none => st
  | some h => st.set h (some (List.replicate a.size val))

/-- The C++ `ndarray(const index_type& shape, const T& val)`: delegating
constructor followed by the fill. -/
def mkShapeFill {α : Type} (st : Store α) (shape : List Nat) (junk val : α) :
    Store α × ndarray :=
  let r := mkShape st shape junk
  (fillData r.1 r.2 val, r.2)

/-- The C++ `friend void swap(ndarray&, ndarray&)`: exchange the three members. -/
def swap (a b : ndarray) : ndarray × ndarray :=
  (⟨b.shape, b.size, b.data⟩, ⟨a.shape, a.size, a.data⟩)

/-- The C++ `ndarray(ndarray&& source)`: default-construct `*this`, then swap it
with the source.  Returns (constructed array, moved-from source). -/
def moveCtor (source : ndarray) : ndarray × ndarray :=
  swap (mkDefault source.shape.length) source

/-- The C++ `ndarray(const ndarray& src)`: copy `_shape` and `_size`; when `src`
owns a buffer, allocate a fresh one and copy `src._size` elements into it,
otherwise keep `_data` null. -/
def copyCtor {α : Type} (st : Store α) (src : ndarray) : Store α × ndarray :=
  match src.data with
  | none => (st, ⟨src.shape, src.size, none⟩)
  | some h =>
      let r := allocNew st (((st.getD h none).getD []).take src.size)
      (r.1, ⟨src.shape, src.size, some r.2⟩)

/-- The C++ `ndarray::clone()`: `return ndarray{*this}`. -/
def clone {α : Type} (st : Store α) (src : ndarray) : Store α × ndarray :=
  copyCtor st src

/-- Release a heap buffer.  The flag is `false` exactly on an invalid or
double free (the slot is not live), which in C++ would be heap corruption. -/
def freeSlot {α : Type} (st : Store α) (h : Nat) : Store α × Bool :=
  match st.getD h none with
  | some _ => (st.set h none, true)
  | none => (st, false)

/-- The C++ `~ndarray` (through `std::unique_ptr`): free the owned buffer, if any. -/
def destroy {α : Type} (st : Store α) (a : ndarray) : Store α × Bool :=
  match a.data with
  | none => (st, true)
  | some h => freeSlot st h

/-- The C++ `ndarray& operator=(ndarray src)` applied to an rvalue right-hand side:
the by-value parameter is move-constructed from the right-hand side, then
swapped with `*this`, and its destructor frees the old left-hand buffer.
Returns (store, new lhs, moved-from rhs, destructor success flag). -/
def moveAssign {α : Type} (st : Store α) (lhs rhs : ndarray) :
    Store α × ndarray × ndarray × Bool :=
  let p := moveCtor rhs
  let q := swap lhs p.1
  let r := destroy st q.2
  (r.1, q.1, p.2, r.2)

/-- The C++ `operator()(const index_type& ind) const`: `_data[n2one(ind)]`.
`none` models the null-data, freed-buffer and out-of-range accesses that
are undefined behaviour in the C++ contract. -/
def readElem {α : Type} (st : Store α) (a : ndarray) (ind : List Nat) :
    Option α :=
  match a.data with
  | none => none
  | some h =>
      match st.getD h none with
      | none => none
      | some buf => buf[n2one a.shape ind]?

/-- The C++ `operator()(const index_type& ind)` as the target of an assignment:
the store after `_data[n2one(ind)] = v`. -/
def writeElem {α : Type} (st : Store α) (a : ndarray) (ind : List Nat)
    (v : α) : Store α :=
  match a.data with
  | none => st
  | some h =>
      match st.getD h none with
      | none => st
      | some buf => st.set h (some (buf.set (n2one a.shape ind) v))

/-- Dereference at a flat position: `_data[pos]`. -/
def readFlat {α : Type} (st : Store α) (a : ndarray) (pos : Nat) : Option α :=
  match a.data with
  | none => none
  | some h =>
      match st.getD h none with
      | none => none
      | some buf => buf[pos]?

/-- Assignment through a flat position: the store after `_data[pos] = v`. -/
def writeFlat {α : Type} (st : Store α) (a : ndarray) (pos : Nat) (v : α) :
    Store α :=
  match a.data with
  | none => st
  | some h =>
      match st.getD h none with
      | none => st
      | some buf => st.set h (some (buf.set pos v))

/-! ### Iterators -/

/-- A flat iterator is the raw pointer `_data.get() + offset`; `base` is
the buffer handle (`none` for the null pointer). `begin()` and `end()`. -/
structure flatIter where
  base : Option Nat
  offset : Nat
deriving DecidableEq, Repr

/-- The C++ `ndarray::begin()` (and its const forms): `_data.get()`. -/
def flatBegin (a : ndarray) : flatIter := ⟨a.data, 0⟩

/-- The C++ `ndarray::end()` (and its const forms): `_data.get() + _size`. -/
def flatEnd (a : ndarray) : flatIter := ⟨a.data, a.size⟩

/-- The C++ `detail::nd_iter_impl`: the pointer `_arr` to the owning array object
(modelled as an opaque identity token) and the flat position `_pos`. -/
structure nd_iter_impl where
  arr : Nat
  pos : Nat
deriving DecidableEq, Repr

/-- The C++ `nd_iter_impl::operator==`: `(a._arr == b._arr) && (a._pos == b._pos)`. -/
def ndIterEq (a b : nd_iter_impl) : Bool :=
  (a.arr == b.arr) && (a.pos == b.pos)

/-- The C++ `nd_iter_impl::operator!=`: `!(a == b)`. -/
def ndIterNe (a b : nd_iter_impl) : Bool :=
  !(ndIterEq a b)

/-- The C++ `ndarray::nd_begin()`: an iterator on this array (token `t`) at 0. -/
def nd_begin (t : Nat) (a : ndarray) : nd_iter_impl := ⟨t, 0⟩

/-- The C++ `ndarray::nd_end()`: an iterator on this array (token `t`) at `_size`. -/
def nd_end (t : Nat) (a : ndarray) : nd_iter_impl := ⟨t, a.size⟩

/-- The C++ `nd_iter_impl::index()`: `_arr->one2n(_pos)`, with `a` the array the
iterator's `_arr` points to. -/
def ndIterIndexOf (a : ndarray) (pos : Nat) : List Nat :=
  one2n a.shape pos

/-- The C++ `nd_iter_impl::operator*()`: `_arr->_data[_pos]`. -/
def ndIterDeref {α : Type} (st : Store α) (a : ndarray) (pos : Nat) :
    Option α :=
  readFlat st a pos

/-- The C++ `detail::nd_enum_iter`: wraps an `nd_iter_impl`. -/
structure nd_enum_iter where
  it : nd_iter_impl
deriving DecidableEq, Repr

/-- The C++ `nd_enum_iter::operator==`: `a._it == b._it`. -/
def ndEnumIterEq (a b : nd_enum_iter) : Bool :=
  ndIterEq a.it b.it

/-- The C++ `nd_enum_iter::operator!=`: `!(a == b)`. -/
def ndEnumIterNe (a b : nd_enum_iter) : Bool :=
  !(ndEnumIterEq a b)

/-- The C++ `nd_enum_iter::operator*()`: the pair `{_it.index(), *_it}`. -/
def ndEnumDeref {α : Type} (st : Store α) (a : ndarray) (pos : Nat) :
    List Nat × Option α :=
  (ndIterIndexOf a pos, ndIterDeref st a pos)

/-- The enumeration loop of the spec scenario: starting from the flat
position `pos`, while the iterator differs from `nd_end()` (`pos <
a.size`; the position starts at 0 and only ever increments by one), write
the component sum of the yielded coordinate through the yielded element
reference and advance the iterator. -/
def enumSumLoop (a : ndarray) (pos : Nat) (st : Store Nat) : Store Nat :=
  if pos < a.size then
    enumSumLoop a (pos + 1) (writeFlat st a pos (ndIterIndexOf a pos).sum)
  else st
termination_by a.size - pos

/-- The C++ `element_iterator<B, index>` over a bidirectional base iterator.  The
base iterator is modelled by its integer position; `operator++` and
`operator--` on the base are successor and predecessor on the position. -/
structure element_iterator where
  base : Int
deriving DecidableEq, Repr

/-- The C++ `element_iterator::operator++(int)` (post-increment):
`return element_iterator{base++};` — the returned iterator holds the old
position and the member `base` is incremented.  The pair is
(returned iterator, iterator state afterwards). -/
def elemIterPostInc (it : element_iterator) : element_iterator × element_iterator :=
  (⟨it.base⟩, ⟨it.base + 1⟩)

/-- The C++ `element_iterator::operator--()` (pre-decrement): `--base;`. -/
def elemIterPreDec (it : element_iterator) : element_iterator :=
  ⟨it.base - 1⟩

/-- The C++ `element_iterator::operator--(int)` (post-decrement), exactly as
written in the source: `return element_iterator{base++};` — the returned
iterator holds the old position and the member `base` is incremented.
The pair is (returned iterator, iterator state afterwards). -/
def elemIterPostDec (it : element_iterator) : element_iterator × element_iterator :=
  (⟨it.base⟩, ⟨it.base + 1⟩)

/-! ### Store helper lemmas -/

theorem getD_eq_getElemD {α : Type} (l : List α) (j : Nat) (d : α) :
    l.getD j d = (l[j]?).getD d := by
  rw [List.getD_eq_getD_get?, List.get?_eq_getElem?]

theorem handle_lt_of_getD {α : Type} {st : Store α} {h : Nat}
    {buf : List α} (hh : st.getD h none = some buf) : h < st.length := by
  by_contra hc
  rw [List.getD_eq_default _ _ (by omega)] at hh
  exact Option.noConfusion hh

theorem storeGetD_set_ne {α : Type} (st : Store α) (i j : Nat)
    (x : Option (List α)) (hij : i ≠ j) :
    (st.set i x).getD j none = st.getD j none := by
  rw [getD_eq_getElemD, getD_eq_getElemD, List.getElem?_set_ne hij]

theorem storeGetD_set_self {α : Type} (st : Store α) (i : Nat)
    (x : Option (List α)) (hi : i < st.length) :
    (st.set i x).getD i none = x := by
  rw [getD_eq_getElemD, List.getElem?_set_self hi]
  rfl

theorem storeGetD_append_self {α : Type} (st : Store α) (x : Option (List α)) :
    (st ++ [x]).getD st.length none = x := by
  rw [List.getD_append_right _ _ _ _ (Nat.le_refl _), Nat.sub_self]
  rfl

theorem prodShape_replicate_zero {N : Nat} (hN : 1 ≤ N) :
    prodShape (List.replicate N 0) = 0 := by
  cases N with
  | zero => omega
  | succ k => rw [List.replicate_succ, prodShape_cons, Nat.zero_mul]

theorem prodShape_eq_zero_of_mem {l : List Nat} (h : 0 ∈ l) :
    prodShape l = 0 := by
  rw [prodShape_eq_prod]
  exact List.prod_eq_zero h

/-! ### The claims -/

/-- C1: for every rank `N ≥ 1` and every shape whose extents are all
`≥ 1`, the forward mapping `n2one` and the inverse mapping `one2n` are
exact two-sided inverses over the valid range: for every flat index
`f ∈ [0, size)`, `n2one (one2n f) = f`, and for every coordinate `c` with
`c[d] ∈ [0, shape[d])` for all `d`, `one2n (n2one c) = c`. -/
theorem C1_index_roundtrip (shape : List Nat) (hrank : 1 ≤ shape.length)
    (hext : ∀ e ∈ shape, 1 ≤ e) :
    (∀ f, f < prodShape shape → n2one shape (one2n shape f) = f) ∧
    (∀ idx, List.Forall₂ (· < ·) idx shape →
      one2n shape (n2one shape idx) = idx) :=
  ⟨n2one_one2n hext, fun _ h => one2n_n2one h⟩

theorem C1_index_roundtrip_witness :
    n2one [2, 3] (one2n [2, 3] 4) = 4 ∧
    one2n [2, 3] (n2one [2, 3] [1, 2]) = [1, 2] := by
  have h := C1_index_roundtrip [2, 3] (by decide) (by decide)
  exact ⟨h.1 4 (by decide), h.2 [1, 2]
    (List.Forall₂.cons (by decide) (List.Forall₂.cons (by decide) List.Forall₂.nil))⟩

/-- C2: for every `ndarray` (any shape, including the default-constructed
one), `stride (N-1) = 1`, `stride d = stride (d+1) * shape (d+1)` for
`d < N-1`, `strides` lists `stride d` entry by entry, and the shape
`[2,3,4,5,6]` has strides `[360,120,30,6,1]`. -/
theorem C2_strides (a : ndarray) :
    stride a.shape (a.shape.length - 1) = 1 ∧
    (∀ d, d + 1 < a.shape.length →
      stride a.shape d = stride a.shape (d + 1) * a.shape.getD (d + 1) 0) ∧
    (∀ d, d < a.shape.length → (strides a.shape).getD d 0 = stride a.shape d) ∧
    strides [2, 3, 4, 5, 6] = [360, 120, 30, 6, 1] := by
  refine ⟨?_, ?_, ?_, ?_⟩
  · rw [stride_eq_prod_drop, List.drop_eq_nil_of_le (by omega)]
    rfl
  · intro d hd
    conv_lhs => rw [stride, dif_pos hd]
    rw [List.getD_eq_getElem _ _ hd]
  · intro d hd
    rw [strides, List.getD_eq_getElem _ _ (by simpa using hd)]
    simp
  · simp only [strides, stride_eq_prod_drop]
    decide

theorem C2_strides_witness :
    stride [4, 5] (2 - 1) = 1 ∧
    stride [4, 5] 0 = stride [4, 5] 1 * 5 ∧
    (strides [4, 5]).getD 0 0 = stride [4, 5] 0 := by
  have h := C2_strides ⟨[4, 5], 20, none⟩
  exact ⟨h.1, h.2.1 0 (by decide), h.2.2.1 0 (by decide)⟩

/-- C3: after every construction path — default, from a shape, from a
shape and fill value, copy, and move — the invariant
`size = product of shape` holds for the constructed array, and for move
also for the moved-from source. -/
theorem C3_size_invariant {α : Type} (N : Nat) (hN : 1 ≤ N)
    (shape : List Nat) (junk val : α) (st : Store α) (a : ndarray)
    (ha : a.size = prodShape a.shape) (hrank : 1 ≤ a.shape.length) :
    (mkDefault N).size = prodShape (mkDefault N).shape ∧
    (mkShape st shape junk).2.size = prodShape (mkShape st shape junk).2.shape ∧
    (mkShapeFill st shape junk val).2.size =
      prodShape (mkShapeFill st shape junk val).2.shape ∧
    (copyCtor st a).2.size = prodShape (copyCtor st a).2.shape ∧
    (moveCtor a).1.size = prodShape (moveCtor a).1.shape ∧
    (moveCtor a).2.size = prodShape (moveCtor a).2.shape := by
  refine ⟨?_, rfl, rfl, ?_, ha, ?_⟩
  · exact (prodShape_replicate_zero hN).symm
  · cases hd : a.data with
    | none => simpa [copyCtor, hd] using ha
    | some h => simpa [copyCtor, hd, allocNew] using ha
  · exact (prodShape_replicate_zero hrank).symm

theorem C3_size_invariant_witness :
    (mkDefault 1).size = prodShape (mkDefault 1).shape ∧
    (mkShape ([] : Store Nat) [2] 0).2.size =
      prodShape (mkShape ([] : Store Nat) [2] 0).2.shape ∧
    (mkShapeFill ([] : Store Nat) [2] 0 1).2.size =
      prodShape (mkShapeFill ([] : Store Nat) [2] 0 1).2.shape ∧
    (copyCtor ([] : Store Nat) ⟨[1], 1, none⟩).2.size =
      prodShape (copyCtor ([] : Store Nat) ⟨[1], 1, none⟩).2.shape ∧
    (moveCtor ⟨[1], 1, none⟩).1.size =
      prodShape (moveCtor ⟨[1], 1, none⟩).1.shape ∧
    (moveCtor ⟨[1], 1, none⟩).2.size =
      prodShape (moveCtor ⟨[1], 1, none⟩).2.shape :=
  C3_size_invariant 1 (by decide) [2] 0 1 [] ⟨[1], 1, none⟩ (by decide) (by decide)

/-! ### The move chain of spec scenario 6

`vec x{{5}}; x = vec{{10}}; vec y{std::move(x)};` with the shape-`{10}`
array fill-constructed with the value 7 so that its contents are known.
`mvScn0` builds the shape-`{10}` array, `mvScn1` the shape-`{5}` array,
`mvScn2` move-assigns the former into the latter, `mvScn3`
move-constructs the third array from the result of the assignment, and
`mvScnD1`/`mvScnD2`/`mvScnD3` run the three destructors at scope exit. -/

/-- The shape-`{10}` source array, filled with 7. -/
def mvScn0 : Store Nat × ndarray := mkShapeFill [] [10] 0 7

/-- The shape-`{5}` destination array. -/
def mvScn1 : Store Nat × ndarray := mkShape mvScn0.1 [5] 0

/-- Move-assign the shape-`{10}` array into the shape-`{5}` one:
(store, new lhs, moved-from rhs, temporary-destructor success). -/
def mvScn2 : Store Nat × ndarray × ndarray × Bool :=
  moveAssign mvScn1.1 mvScn1.2 mvScn0.2

/-- Move-construct the third array from the result of the assignment:
(third array, moved-from assignment target). -/
def mvScn3 : ndarray × ndarray := moveCtor mvScn2.2.1

/-- Scope exit: destroy the third array. -/
def mvScnD1 : Store Nat × Bool := destroy mvScn2.1 mvScn3.1

/-- Scope exit: destroy the moved-from assignment target. -/
def mvScnD2 : Store Nat × Bool := destroy mvScnD1.1 mvScn3.2

/-- Scope exit: destroy the moved-from source array. -/
def mvScnD3 : Store Nat × Bool := destroy mvScnD2.1 mvScn2.2.2.1

/-- C4 counterexample: after move-assigning the shape-`{10}` array into
the shape-`{5}` one and move-constructing a third array from the result,
the third array has size 10, not 5 (the repository's own test requires
`y.size() == 10`). -/
theorem C4_counterexample : ¬ mvScn3.1.size = 5 := by decide

/-- C4 (amended): move-assigning a rank-1 array of shape `{10}` into an
existing array of shape `{5}`, then move-constructing a third array from
the result of that assignment, leaves the third array with size 10 and
shape `{10}`, with no double free or content corruption at any step:
the temporary's destructor inside the assignment frees the old `{5}`
buffer exactly once, the three scope-exit destructors each succeed, every
buffer ends up freed, and the third array still reads the original fill
value 7 at each of its ten flat positions. -/
theorem C4_amended_move_chain :
    mvScn3.1.size = 10 ∧ mvScn3.1.shape = [10] ∧
    mvScn2.2.2.2 = true ∧
    mvScnD1.2 = true ∧ mvScnD2.2 = true ∧ mvScnD3.2 = true ∧
    mvScnD3.1 = [none, none] ∧
    (∀ pos, pos < 10 → readFlat mvScn2.1 mvScn3.1 pos = some 7) := by decide

/-- C5: move construction leaves the destination with the source's prior
shape, size and element contents, and the source in the empty-equivalent
state: all-zero shape, size 0, and no owned storage. -/
theorem C5_move_ctor {α : Type} (st : Store α) (a : ndarray) :
    (moveCtor a).1.shape = a.shape ∧ (moveCtor a).1.size = a.size ∧
    (∀ ind, readElem st (moveCtor a).1 ind = readElem st a ind) ∧
    (moveCtor a).2.shape = List.replicate a.shape.length 0 ∧
    (moveCtor a).2.size = 0 ∧ (moveCtor a).2.data = none :=
  ⟨rfl, rfl, fun _ => rfl, rfl, rfl, rfl⟩

theorem C5_move_ctor_witness :
    (moveCtor ⟨[2, 3], 6, some 0⟩).1.shape = [2, 3] ∧
    (moveCtor ⟨[2, 3], 6, some 0⟩).1.size = 6 ∧
    readElem [some [1, 2, 3, 4, 5, 6]] (moveCtor ⟨[2, 3], 6, some 0⟩).1 [1, 2] =
      readElem [some [1, 2, 3, 4, 5, 6]] ⟨[2, 3], 6, some 0⟩ [1, 2] ∧
    (moveCtor ⟨[2, 3], 6, some 0⟩).2.shape = List.replicate 2 0 ∧
    (moveCtor ⟨[2, 3], 6, some 0⟩).2.size = 0 ∧
    (moveCtor ⟨[2, 3], 6, some 0⟩).2.data = none := by
  have h := C5_move_ctor [some [1, 2, 3, 4, 5, 6]] ⟨[2, 3], 6, some 0⟩
  exact ⟨h.1, h.2.1, h.2.2.1 [1, 2], h.2.2.2.1, h.2.2.2.2.1, h.2.2.2.2.2⟩

/-- Copy construction from an array that owns a live buffer appends a
fresh buffer holding the copied elements. -/
theorem copyCtor_some {α : Type} (st : Store α) (a : ndarray) (h : Nat)
    (ha : a.data = some h) :
    copyCtor st a = (st ++ [some (((st.getD h none).getD []).take a.size)],
      ⟨a.shape, a.size, some st.length⟩) := by
  simp [copyCtor, ha, allocNew]

/-- C6: after copy construction the copy and the source are independent:
they have the same shape, size and element contents, and a write through
either one's element access leaves every element read through the other
unchanged.  `clone()` is the same copy construction. -/
theorem C6_copy_independence {α : Type} (st : Store α) (a : ndarray)
    (h : Nat) (buf : List α) (ha : a.data = some h)
    (hbuf : st.getD h none = some buf) (hlen : buf.length = a.size) :
    (copyCtor st a).2.shape = a.shape ∧
    (copyCtor st a).2.size = a.size ∧
    clone st a = copyCtor st a ∧
    (∀ ind, readElem (copyCtor st a).1 (copyCtor st a).2 ind =
      readElem (copyCtor st a).1 a ind) ∧
    (∀ ind v ind2, readElem
        (writeElem (copyCtor st a).1 (copyCtor st a).2 ind v) a ind2 =
      readElem (copyCtor st a).1 a ind2) ∧
    (∀ ind v ind2, readElem
        (writeElem (copyCtor st a).1 a ind v) (copyCtor st a).2 ind2 =
      readElem (copyCtor st a).1 (copyCtor st a).2 ind2) := by
  have hlt : h < st.length := handle_lt_of_getD hbuf
  have hbufC : ((st.getD h none).getD []).take a.size = buf := by
    rw [hbuf, Option.getD_some, ← hlen, List.take_length]
  have hcc : copyCtor st a =
      (st ++ [some buf], ⟨a.shape, a.size, some st.length⟩) := by
    rw [copyCtor_some st a h ha, hbufC]
  rw [hcc]
  have hA : (st ++ [some buf]).getD h none = some buf := by
    rw [List.getD_append _ _ _ _ hlt]
    exact hbuf
  have hB : (st ++ [some buf]).getD st.length none = some buf :=
    storeGetD_append_self st (some buf)
  have hne : st.length ≠ h := by omega
  refine ⟨rfl, rfl, hcc, ?_, ?_, ?_⟩
  · intro ind
    simp only [readElem, ha, hA, hB]
  · intro ind v ind2
    simp only [writeElem, readElem, ha, hA, hB]
    rw [storeGetD_set_ne _ _ _ _ hne, hA]
  · intro ind v ind2
    simp only [writeElem, readElem, ha, hA, hB]
    rw [storeGetD_set_ne _ _ _ _ (Ne.symm hne), hB]

theorem C6_copy_independence_witness :
    (copyCtor [some [5, 6]] (⟨[2], 2, some 0⟩ : ndarray)).2.shape = [2] ∧
    (copyCtor [some [5, 6]] (⟨[2], 2, some 0⟩ : ndarray)).2.size = 2 ∧
    clone [some [5, 6]] (⟨[2], 2, some 0⟩ : ndarray) =
      copyCtor [some [5, 6]] (⟨[2], 2, some 0⟩ : ndarray) ∧
    readElem (copyCtor [some [5, 6]] (⟨[2], 2, some 0⟩ : ndarray)).1
        (copyCtor [some [5, 6]] (⟨[2], 2, some 0⟩ : ndarray)).2 [1] =
      readElem (copyCtor [some [5, 6]] (⟨[2], 2, some 0⟩ : ndarray)).1
        ⟨[2], 2, some 0⟩ [1] ∧
    readElem (writeElem (copyCtor [some [5, 6]] (⟨[2], 2, some 0⟩ : ndarray)).1
        (copyCtor [some [5, 6]] (⟨[2], 2, some 0⟩ : ndarray)).2 [1] 9)
        ⟨[2], 2, some 0⟩ [0] =
      readElem (copyCtor [some [5, 6]] (⟨[2], 2, some 0⟩ : ndarray)).1
        ⟨[2], 2, some 0⟩ [0] ∧
    readElem (writeElem (copyCtor [some [5, 6]] (⟨[2], 2, some 0⟩ : ndarray)).1
        (⟨[2], 2, some 0⟩ : ndarray) [1] 9)
        (copyCtor [some [5, 6]] (⟨[2], 2, some 0⟩ : ndarray)).2 [0] =
      readElem (copyCtor [some [5, 6]] (⟨[2], 2, some 0⟩ : ndarray)).1
        (copyCtor [some [5, 6]] (⟨[2], 2, some 0⟩ : ndarray)).2 [0] := by
  have h := C6_copy_independence [some [5, 6]] ⟨[2], 2, some 0⟩ 0 [5, 6]
    rfl (by decide) (by decide)
  exact ⟨h.1, h.2.1, h.2.2.1, h.2.2.2.1 [1], h.2.2.2.2.1 [1] 9 [0],
    h.2.2.2.2.2 [1] 9 [0]⟩

/-- The pure effect of `enumSumLoop` on the owned buffer: position by
position, the component sum of the corresponding coordinate. -/
def sumFill (a : ndarray) (pos : Nat) (buf : List Nat) : List Nat :=
  if pos < a.size then
    sumFill a (pos + 1) (buf.set pos (ndIterIndexOf a pos).sum)
  else buf
termination_by a.size - pos

theorem sumFill_get_lt (a : ndarray) (pos : Nat) (buf : List Nat) (q : Nat)
    (hq : q < pos) : (sumFill a pos buf)[q]? = buf[q]? := by
  by_cases hp : pos < a.size
  · rw [sumFill, if_pos hp,
      sumFill_get_lt a (pos + 1) (buf.set pos (ndIterIndexOf a pos).sum) q (by omega),
      List.getElem?_set_ne (by omega)]
  · rw [sumFill, if_neg hp]
termination_by a.size - pos

theorem sumFill_get (a : ndarray) (pos : Nat) (buf : List Nat)
    (hlen : buf.length = a.size) (q : Nat) (hq1 : pos ≤ q)
    (hq2 : q < a.size) :
    (sumFill a pos buf)[q]? = some (ndIterIndexOf a q).sum := by
  have hp : pos < a.size := by omega
  rw [sumFill, if_pos hp]
  rcases Nat.eq_or_lt_of_le hq1 with heq | hlt
  · subst heq
    rw [sumFill_get_lt a (pos + 1) _ pos (by omega),
      List.getElem?_set_self (by omega)]
  · exact sumFill_get a (pos + 1) _ (by rw [List.length_set]; exact hlen) q hlt hq2
termination_by a.size - pos

/-- Running the enumeration loop rewrites the owned buffer through
`sumFill` and leaves every other heap slot untouched. -/
theorem enumSumLoop_getD (a : ndarray) (hndl : Nat) (ha : a.data = some hndl)
    (pos : Nat) (st : Store Nat) (buf : List Nat)
    (hbuf : st.getD hndl none = some buf) :
    (enumSumLoop a pos st).getD hndl none = some (sumFill a pos buf) ∧
    (∀ j, j ≠ hndl → (enumSumLoop a pos st).getD j none = st.getD j none) := by
  have hlt : hndl < st.length := handle_lt_of_getD hbuf
  by_cases hp : pos < a.size
  · have hw : writeFlat st a pos (ndIterIndexOf a pos).sum =
        st.set hndl (some (buf.set pos (ndIterIndexOf a pos).sum)) := by
      simp only [writeFlat, ha, hbuf]
    have hbuf2 : (st.set hndl
        (some (buf.set pos (ndIterIndexOf a pos).sum))).getD hndl none =
        some (buf.set pos (ndIterIndexOf a pos).sum) :=
      storeGetD_set_self _ _ _ hlt
    have ih := enumSumLoop_getD a hndl ha (pos + 1) _ _ hbuf2
    constructor
    · rw [enumSumLoop, if_pos hp, hw, ih.1]
      conv_rhs => rw [sumFill, if_pos hp]
    · intro j hj
      rw [enumSumLoop, if_pos hp, hw, ih.2 j hj,
        storeGetD_set_ne _ _ _ _ (Ne.symm hj)]
  · constructor
    · rw [enumSumLoop, if_neg hp, sumFill, if_neg hp]
      exact hbuf
    · intro j hj
      rw [enumSumLoop, if_neg hp]
termination_by a.size - pos

/-- Unfolding of the shape constructor into its heap effect. -/
theorem mkShape_eq {α : Type} (st : Store α) (shape : List Nat) (junk : α) :
    mkShape st shape junk =
      (st ++ [some (List.replicate (prodShape shape) junk)],
        ⟨shape, prodShape shape, some st.length⟩) := rfl

/-- C7: enumerating a freshly constructed array (all extents `≥ 1`) and
writing the component sum of each yielded coordinate through the yielded
element reference makes element access at every valid coordinate return
the sum of its components; each dereference of the enumerating iterator
is the pair of the wrapped iterator's `index()` and its dereference. -/
theorem C7_enum_write_sums (shape : List Nat) (hrank : 1 ≤ shape.length)
    (hext : ∀ e ∈ shape, 1 ≤ e) (st : Store Nat) (junk : Nat) :
    (∀ idx, List.Forall₂ (· < ·) idx shape →
      readElem (enumSumLoop (mkShape st shape junk).2 0 (mkShape st shape junk).1)
        (mkShape st shape junk).2 idx = some idx.sum) ∧
    (∀ (st2 : Store Nat) (arr : ndarray) (pos : Nat),
      ndEnumDeref st2 arr pos = (ndIterIndexOf arr pos, ndIterDeref st2 arr pos)) := by
  constructor
  · intro idx hidx
    rw [mkShape_eq]
    have hbuf : (st ++ [some (List.replicate (prodShape shape) junk)]).getD
        st.length none = some (List.replicate (prodShape shape) junk) :=
      storeGetD_append_self st _
    have hloop := enumSumLoop_getD ⟨shape, prodShape shape, some st.length⟩
      st.length rfl 0 _ _ hbuf
    have hflat : n2one shape idx < prodShape shape := n2one_lt_prodShape hidx
    have hget := sumFill_get ⟨shape, prodShape shape, some st.length⟩ 0
      (List.replicate (prodShape shape) junk) (by simp)
      (n2one shape idx) (Nat.zero_le _) hflat
    simp only [readElem, hloop.1, hget]
    simp only [ndIterIndexOf, one2n_n2one hidx]
  · intro st2 arr pos
    rfl

theorem C7_enum_write_sums_witness :
    readElem (enumSumLoop (mkShape ([] : Store Nat) [2, 3] 0).2 0
        (mkShape ([] : Store Nat) [2, 3] 0).1)
      (mkShape ([] : Store Nat) [2, 3] 0).2 [1, 2] = some 3 ∧
    ndEnumDeref ([] : Store Nat) ⟨[2], 2, none⟩ 0 =
      (ndIterIndexOf ⟨[2], 2, none⟩ 0,
        ndIterDeref ([] : Store Nat) ⟨[2], 2, none⟩ 0) := by
  have h := C7_enum_write_sums [2, 3] (by decide) (by decide) [] 0
  exact ⟨h.1 [1, 2] (List.Forall₂.cons (by decide)
    (List.Forall₂.cons (by decide) List.Forall₂.nil)), h.2 [] ⟨[2], 2, none⟩ 0⟩

/-- C8: two ND iterators are equal exactly when they reference the same
array instance and hold the same flat position, inequality is the
negation of equality, and the enumerating iterator's equality and
inequality delegate to the wrapped ND iterator's. -/
theorem C8_iterator_equality (a b : nd_iter_impl) (x y : nd_enum_iter) :
    (ndIterEq a b = true ↔ a.arr = b.arr ∧ a.pos = b.pos) ∧
    ndIterNe a b = !ndIterEq a b ∧
    ndEnumIterEq x y = ndIterEq x.it y.it ∧
    ndEnumIterNe x y = !ndEnumIterEq x y := by
  refine ⟨?_, rfl, rfl, rfl⟩
  simp [ndIterEq]

theorem C8_iterator_equality_witness :
    (ndIterEq ⟨1, 2⟩ ⟨1, 2⟩ = true ↔ (1 : Nat) = 1 ∧ (2 : Nat) = 2) ∧
    ndIterNe ⟨1, 2⟩ ⟨1, 2⟩ = !ndIterEq ⟨1, 2⟩ ⟨1, 2⟩ ∧
    ndEnumIterEq ⟨⟨1, 2⟩⟩ ⟨⟨1, 3⟩⟩ = ndIterEq ⟨1, 2⟩ ⟨1, 3⟩ ∧
    ndEnumIterNe ⟨⟨1, 2⟩⟩ ⟨⟨1, 3⟩⟩ = !ndEnumIterEq ⟨⟨1, 2⟩⟩ ⟨⟨1, 3⟩⟩ :=
  C8_iterator_equality ⟨1, 2⟩ ⟨1, 2⟩ ⟨⟨1, 2⟩⟩ ⟨⟨1, 3⟩⟩

/-- C9: constructing an array from a shape containing a zero extent gives
size 0, and both iteration ranges are empty: `begin() == end()` for the
flat range and `nd_begin() == nd_end()` for the ND range. -/
theorem C9_zero_extent_empty {α : Type} (st : Store α) (shape : List Nat)
    (junk : α) (h0 : 0 ∈ shape) :
    (mkShape st shape junk).2.size = 0 ∧
    flatBegin (mkShape st shape junk).2 = flatEnd (mkShape st shape junk).2 ∧
    (∀ t, ndIterEq (nd_begin t (mkShape st shape junk).2)
      (nd_end t (mkShape st shape junk).2) = true) := by
  have hz : prodShape shape = 0 := prodShape_eq_zero_of_mem h0
  rw [mkShape_eq]
  refine ⟨hz, ?_, ?_⟩
  · simp only [flatBegin, flatEnd, hz]
  · intro t
    simp [nd_begin, nd_end, ndIterEq, hz]

theorem C9_zero_extent_empty_witness :
    (mkShape ([] : Store Nat) [2, 0, 3] 0).2.size = 0 ∧
    flatBegin (mkShape ([] : Store Nat) [2, 0, 3] 0).2 =
      flatEnd (mkShape ([] : Store Nat) [2, 0, 3] 0).2 ∧
    ndIterEq (nd_begin 0 (mkShape ([] : Store Nat) [2, 0, 3] 0).2)
      (nd_end 0 (mkShape ([] : Store Nat) [2, 0, 3] 0).2) = true := by
  have h := C9_zero_extent_empty ([] : Store Nat) [2, 0, 3] 0 (by decide)
  exact ⟨h.1, h.2.1, h.2.2 0⟩

/-- C10: the post-decrement of `element_iterator` at base position 1, as
written in the source, returns an iterator holding the original position
but leaves the iterator at position 2 — one step later, not one step
earlier: its body is the post-increment body (`base++` instead of
`base--`), contradicting the function's own `Post decrement` comment and
the adjacent pre-decrement. -/
theorem C10_postdec_evaluation :
    (elemIterPostDec ⟨1⟩).1.base = 1 ∧
    (elemIterPostDec ⟨1⟩).2.base = 2 ∧
    (elemIterPostDec ⟨1⟩).2 ≠ elemIterPreDec ⟨1⟩ ∧
    elemIterPostDec ⟨1⟩ = elemIterPostInc ⟨1⟩ := by decide

end Libmisc
